import Mathlib

/-!
Verification of the Orca repository's core components against its
natural-language specification: the rename plan compiler
(`src/ui/rename_files_page.py`), the image editor's undo/redo history and
export-region recomputation (`src/ui/image_editor_page.py`), and the image
candidate scoring / download-dedup pipeline
(`src/ui/image_downloader_page.py`).

Modelling conventions:
* Python strings are Lean `String`s; Python lists are Lean `List`s.
* Python-stdlib collaborators with no algorithmic content of their own in
  this repository (`re.sub`/`re.search` applied to caller-supplied patterns,
  `urllib.parse.urljoin`, the `urlencode`-round-trip inside
  `_strip_size_params`, `requests.get`, `PIL.Image.open`, `hashlib.sha256`,
  `urlparse(url).path` name extraction) are taken as function parameters
  ("oracles"); every theorem below holds for every choice of these
  parameters unless it instantiates them concretely.
* Concrete regular expressions appearing literally in the source
  (`^\\d+`, `/s\d+x\d+/`, `(_s|-sm|_small|-small|thumb)`,
  `background-image\s*:\s*url\(([^)]+)\)`, `(\d+)w`) are implemented
  directly, following Python `re` semantics (leftmost match, ordered
  alternation, greedy with backtracking).
* Python `str(n)` for a non-negative int is `natRepr` below.
-/

/-! ### Decimal representation of naturals (Python `str(int)` for `int >= 0`) -/

/-- Decimal digit characters of `n`, most significant first; `fuel`-driven
structural recursion (`fuel > n` suffices). Mirrors Python `str(n)` for a
non-negative `n`. -/
def natReprAux : Nat → Nat → List Char
  | 0, _ => []
  | fuel + 1, n =>
    if n < 10 then [Nat.digitChar n]
    else natReprAux fuel (n / 10) ++ [Nat.digitChar (n % 10)]

/-- Decimal string of a natural number, as Python `str` renders it. -/
def natRepr (n : Nat) : String := (natReprAux (n + 1) n).asString

theorem natReprAux_ne_nil (fuel n : Nat) (h : n < fuel) : natReprAux fuel n ≠ [] := by
  cases fuel with
  | zero => omega
  | succ f =>
    simp only [natReprAux]
    split
    · simp
    · simp

theorem digitChar_inj (m n : Nat) (hm : m < 10) (hn : n < 10)
    (h : Nat.digitChar m = Nat.digitChar n) : m = n := by
  interval_cases m <;> interval_cases n <;> simp_all [Nat.digitChar]

theorem natReprAux_inj (fm : Nat) : ∀ fn m n, m < fm → n < fn →
    natReprAux fm m = natReprAux fn n → m = n := by
  induction fm with
  | zero => intro fn m n hm; omega
  | succ f ih =>
    intro fn m n hm hn heq
    cases fn with
    | zero => omega
    | succ g =>
      simp only [natReprAux] at heq
      by_cases h1 : m < 10 <;> by_cases h2 : n < 10
      · simp only [if_pos h1, if_pos h2] at heq
        exact digitChar_inj m n h1 h2 (by injection heq)
      · simp only [if_pos h1, if_neg h2] at heq
        have hne := natReprAux_ne_nil g (n / 10)
          (by have := Nat.div_lt_self (by omega : 0 < n) (by omega : 1 < 10); omega)
        cases hg : natReprAux g (n / 10) with
        | nil => exact absurd hg hne
        | cons a l => rw [hg] at heq; simp at heq
      · simp only [if_neg h1, if_pos h2] at heq
        have hne := natReprAux_ne_nil f (m / 10)
          (by have := Nat.div_lt_self (by omega : 0 < m) (by omega : 1 < 10); omega)
        cases hg : natReprAux f (m / 10) with
        | nil => exact absurd hg hne
        | cons a l => rw [hg] at heq; simp at heq
      · simp only [if_neg h1, if_neg h2] at heq
        have hrev := congrArg List.reverse heq
        simp only [List.reverse_append, List.reverse_cons, List.reverse_nil,
          List.nil_append, List.cons_append, List.cons.injEq] at hrev
        obtain ⟨hdig, htail⟩ := hrev
        have hmod : m % 10 = n % 10 :=
          digitChar_inj _ _ (Nat.mod_lt _ (by omega)) (Nat.mod_lt _ (by omega)) hdig
        have hdiv : m / 10 = n / 10 := by
          have h10m : m / 10 < f := by
            have := Nat.div_lt_self (by omega : 0 < m) (by omega : 1 < 10); omega
          have h10n : n / 10 < g := by
            have := Nat.div_lt_self (by omega : 0 < n) (by omega : 1 < 10); omega
          exact ih g (m / 10) (n / 10) h10m h10n
            (List.reverse_injective htail)
        omega

theorem natRepr_inj : Function.Injective natRepr := by
  intro m n h
  have hd : natReprAux (m + 1) m = natReprAux (n + 1) n := by
    have := congrArg String.toList h
    simpa [natRepr, List.toList_asString] using this
  exact natReprAux_inj (m + 1) (n + 1) m n (Nat.lt_succ_self m) (Nat.lt_succ_self n) hd

/-! ### `pathlib` stem/suffix splitting

`_split_name` in `src/ui/rename_files_page.py` returns
`(Path(name).stem, Path(name).suffix)`.  For a plain file name (no path
separators) `pathlib` computes `i = name.rfind('.')` and returns
`(name[:i], name[i:])` when `0 < i < len(name) - 1`, else `(name, '')`. -/

/-- Index of the last `'.'` in the character list, if any. -/
def lastDotIdx (l : List Char) : Option Nat :=
  ((l.enum.filter (fun p => p.2 == '.')).getLast?).map Prod.fst

/-- `Path(name).stem, Path(name).suffix` for a plain file name. -/
def splitName (name : String) : String × String :=
  let l := name.data
  match lastDotIdx l with
  | none => (name, "")
  | some i =>
    if 0 < i ∧ i < l.length - 1 then ((l.take i).asString, (l.drop i).asString)
    else (name, "")

/-! ### Collision-resolution loops

Both `_resolve_collision` (rename page) and `_unique_path` (downloader page)
probe candidates `f"{stem}_{index}{ext}"` for increasing `index` until the
candidate is absent from a finite collection, so both terminate; `fuel`
larger than the collection's size is always sufficient (`resolveLoop_spec`
below). -/

/-- The probed candidate name `f"{stem}_{index}{ext}"`. -/
def candName (stem ext : String) (i : Nat) : String :=
  stem ++ "_" ++ natRepr i ++ ext

/-- The probing loop shared by `_resolve_collision` and `_unique_path`:
first free index at or after `i`, searching `fuel` indices. -/
def resolveLoop (stem ext : String) (taken : List String) : Nat → Nat → String
  | 0, i => candName stem ext i
  | fuel + 1, i =>
    if taken.elem (candName stem ext i) then resolveLoop stem ext taken fuel (i + 1)
    else candName stem ext i

/-- `_resolve_collision(name, used)` from `src/ui/rename_files_page.py`. -/
def resolveCollision (name : String) (used : List String) : String :=
  if used.elem name then
    let p := splitName name
    resolveLoop p.1 p.2 used (used.length + 1) 2
  else name

theorem candName_inj (stem ext : String) : Function.Injective (candName stem ext) := by
  intro i j h
  apply natRepr_inj
  have h' : (stem ++ "_" ++ natRepr i ++ ext).data = (stem ++ "_" ++ natRepr j ++ ext).data :=
    congrArg String.data h
  simp only [String.data_append] at h'
  have h1 := List.append_cancel_right h'
  have h2 := List.append_cancel_left h1
  exact String.ext h2

theorem resolveLoop_shape (stem ext : String) (taken : List String) :
    ∀ fuel i, ∃ j, i ≤ j ∧ resolveLoop stem ext taken fuel i = candName stem ext j := by
  intro fuel
  induction fuel with
  | zero => intro i; exact ⟨i, le_refl i, rfl⟩
  | succ f ih =>
    intro i
    simp only [resolveLoop]
    split
    · obtain ⟨j, hj, he⟩ := ih (i + 1)
      exact ⟨j, by omega, he⟩
    · exact ⟨i, le_refl i, rfl⟩

theorem resolveLoop_fresh (stem ext : String) (taken : List String) :
    ∀ fuel i,
      ((List.range' i fuel).filter (fun j => taken.elem (candName stem ext j))).length < fuel →
      resolveLoop stem ext taken fuel i ∉ taken := by
  intro fuel
  induction fuel with
  | zero => intro i h; omega
  | succ f ih =>
    intro i h
    simp only [resolveLoop]
    split
    case isTrue hmem =>
      apply ih (i + 1)
      simp only [List.range'_succ, List.filter_cons, hmem, if_true, List.length_cons] at h
      omega
    case isFalse hmem =>
      intro hc
      exact absurd (List.elem_iff.mpr hc) (by simpa using hmem)

theorem filter_range'_length_le (p : Nat → String) (taken : List String)
    (hinj : Function.Injective p) (i fuel : Nat) :
    ((List.range' i fuel).filter (fun j => taken.elem (p j))).length ≤ taken.length := by
  set l := (List.range' i fuel).filter (fun j => taken.elem (p j)) with hl
  have hnodup : (l.map p).Nodup := by
    apply List.Nodup.map hinj
    exact (List.nodup_range' i fuel).filter _
  have hsub : ∀ x ∈ l.map p, x ∈ taken := by
    intro x hx
    obtain ⟨j, hj, rfl⟩ := List.mem_map.mp hx
    have := List.of_mem_filter hj
    exact List.elem_iff.mp this
  calc l.length = (l.map p).length := (List.length_map _ _).symm
    _ = (l.map p).toFinset.card := (List.toFinset_card_of_nodup hnodup).symm
    _ ≤ taken.toFinset.card := Finset.card_le_card (fun x hx => by
        rw [List.mem_toFinset] at hx ⊢; exact hsub x hx)
    _ ≤ taken.length := taken.toFinset_card_le

theorem resolveCollision_not_mem (name : String) (used : List String) :
    resolveCollision name used ∉ used := by
  unfold resolveCollision
  split
  · apply resolveLoop_fresh
    have := filter_range'_length_le (candName (splitName name).1 (splitName name).2)
      used (candName_inj _ _) 2 (used.length + 1)
    omega
  case isFalse h =>
    intro hc
    exact absurd (List.elem_iff.mpr hc) (by simpa using h)

/-! ### Rename plan compiler (`src/ui/rename_files_page.py`)

`RenameRules` is the dataclass from `src/services/ai_client.py`; its
`replace` items are `{pattern, replacement}` dicts (pairs here), `None`
list fields are modelled as `[]` (both are falsy and behave identically in
`_build_plan_from_rules`), and the `numbering` dict is a structure whose
fields carry the values `_build_plan_from_rules` reads out with `.get`
defaults.  Source field names `prefix`/`suffix`/`case` are Lean keywords,
rendered `pfx`/`sfx`/`caseMode`.

Python `re` applied to caller-supplied patterns is abstracted:
`reSub pattern replacement s` stands for `re.sub(pattern, replacement, s)`
and `reSearch pattern s` for the truthiness of `re.search(pattern, stem)`
(a pattern that raises `re.error` is caught by `_should_skip` and
contributes `false`). -/

/-- The `numbering` rule dict: `enabled`, `start`, `padding`, `prefix`,
`suffix`, `skip_if_numbered`. `start` and `padding` are modelled as `Nat`
(`str(counter)` for a non-negative counter is `natRepr`; `zfill` with a
non-positive width is the identity, like width `0`). -/
structure Numbering where
  enabled : Bool
  start : Nat
  padding : Nat
  pfx : String
  sfx : String
  skip_if_numbered : Bool
deriving DecidableEq

/-- The `RenameRules` dataclass of `src/services/ai_client.py`. -/
structure RenameRules where
  preserve_extensions : Bool
  extension : String
  caseMode : String
  pfx : String
  sfx : String
  replace : List (String × String)
  skip_if_matches : List String
  numbering : Option Numbering
deriving DecidableEq

/-- Python `str.zfill` for an unsigned string: left-pad with `'0'` up to
`width`. -/
def zfill (s : String) (width : Nat) : String :=
  if s.length < width then (List.replicate (width - s.length) '0').asString ++ s else s

/-- `_should_skip(stem, rules)`: true iff some `skip_if_matches` pattern
matches the stem (`re.search`); an empty pattern list returns false. -/
def shouldSkip (reSearch : String → String → Bool) (stem : String)
    (rules : RenameRules) : Bool :=
  rules.skip_if_matches.any (fun pat => reSearch pat stem)

/-- The `replace` loop: apply each `re.sub(pattern, replacement, ·)` in
order, skipping entries with a falsy (empty) pattern. -/
def applyReplace (reSub : String → String → String → String)
    (rs : List (String × String)) (stem : String) : String :=
  rs.foldl (fun s item => if item.1 = "" then s else reSub item.1 item.2 s) stem

/-- Python `str.lower()` (ASCII case mapping; the source may receive
non-ASCII names, where CPython's Unicode mapping can differ — the claims
only exercise ASCII). -/
def strLower (s : String) : String := (s.data.map Char.toLower).asString

/-- Python `str.upper()` (ASCII case mapping, see `strLower`). -/
def strUpper (s : String) : String := (s.data.map Char.toUpper).asString

/-- Python `str.startswith`, on character lists. -/
def strStartsWith (s pre : String) : Bool := pre.data.isPrefixOf s.data

/-- The case transform: `.lower()` when `case == "lower"`, `.upper()` when
`case == "upper"`, identity otherwise. -/
def applyCase (mode s : String) : String :=
  if mode = "lower" then strLower s else if mode = "upper" then strUpper s else s

/-- The numbering guard `re.match(r"^\\d+", stem)`.  The source's raw
string denotes the regex `^\\d+`, i.e. a literal backslash followed by one
or more `'d'` characters — NOT a leading digit sequence; it is truthy
exactly when the stem starts with `"\d"`. -/
def matchesLiteralBackslashD (stem : String) : Bool :=
  strStartsWith stem "\\d"

/-- One loop body of `_build_plan_from_rules` before collision resolution:
given the original `name` and the shared counter, produce the candidate
`new_name` and the updated counter. -/
def renameStep (reSub : String → String → String → String)
    (reSearch : String → String → Bool) (rules : RenameRules) (nb : Numbering)
    (name : String) (counter : Nat) : String × Nat :=
  let p := splitName name
  let stem := p.1
  let ext := p.2
  let target_ext :=
    if rules.preserve_extensions then ext
    else if rules.extension = "" then ext else rules.extension
  if shouldSkip reSearch stem rules then (name, counter)
  else
    let s1 := applyReplace reSub rules.replace stem
    let s2 := applyCase rules.caseMode s1
    let s3 := rules.pfx ++ s2 ++ rules.sfx
    if nb.enabled then
      if nb.skip_if_numbered && matchesLiteralBackslashD stem then
        (stem ++ target_ext, counter)
      else
        (nb.pfx ++ zfill (natRepr counter) nb.padding ++ nb.sfx ++ target_ext, counter + 1)
    else (s3 ++ target_ext, counter)

/-- The main loop of `_build_plan_from_rules`: fold over the file names,
carrying the `used` set (a list here; only membership and insertion are
used) and the shared numbering counter. -/
def buildPlanGo (reSub : String → String → String → String)
    (reSearch : String → String → Bool) (rules : RenameRules) (nb : Numbering) :
    List String → List String → Nat → List (String × String)
  | [], _, _ => []
  | name :: rest, used, counter =>
    (name, resolveCollision (renameStep reSub reSearch rules nb name counter).1 used) ::
      buildPlanGo reSub reSearch rules nb rest
        (resolveCollision (renameStep reSub reSearch rules nb name counter).1 used :: used)
        (renameStep reSub reSearch rules nb name counter).2

/-- `_build_plan_from_rules(filenames, rules)`: the `used` set starts as
`set(filenames)`, the counter at `numbering.get("start", 1)`; a `None`
`numbering` behaves as a dict where every `.get` yields its default. -/
def buildPlanFromRules (reSub : String → String → String → String)
    (reSearch : String → String → Bool) (filenames : List String)
    (rules : RenameRules) : List (String × String) :=
  let nb := rules.numbering.getD ⟨false, 1, 2, "", "", true⟩
  buildPlanGo reSub reSearch rules nb filenames filenames nb.start

/-- Trivial oracle instances for concrete scenarios in which `replace` and
`skip_if_matches` are empty: the identity substitution and a
never-matching search. -/
def reSubId : String → String → String → String := fun _ _ s => s

/-- A search oracle that never matches (no skip patterns are consulted). -/
def reSearchNone : String → String → Bool := fun _ _ => false

/-- A search oracle that always matches (any skip pattern hits). -/
def reSearchAll : String → String → Bool := fun _ _ => true

/-- `RenameRules` used by the spec's C1 scenario:
`{case: lower, preserveExtensions: true}` with everything else empty or
disabled. -/
def c1Rules : RenameRules :=
  { preserve_extensions := true
    extension := ""
    caseMode := "lower"
    pfx := ""
    sfx := ""
    replace := []
    skip_if_matches := []
    numbering := none }

example : splitName "a.TXT" = ("a", ".TXT") := by decide
example : splitName ".bashrc" = (".bashrc", "") := by decide
example : splitName "archive.tar.gz" = ("archive.tar", ".gz") := by decide
example : splitName "name." = ("name.", "") := by decide
example : natRepr 210 = "210" := by decide
example : zfill (natRepr 1) 3 = "001" := by decide

/-! ### Properties of the rename plan compiler -/

theorem buildPlanGo_spec (reSub : String → String → String → String)
    (reSearch : String → String → Bool) (rules : RenameRules) (nb : Numbering) :
    ∀ (names used : List String) (counter : Nat),
      (buildPlanGo reSub reSearch rules nb names used counter).map Prod.fst = names ∧
      ((buildPlanGo reSub reSearch rules nb names used counter).map Prod.snd).Nodup ∧
      ∀ x ∈ (buildPlanGo reSub reSearch rules nb names used counter).map Prod.snd,
        x ∉ used := by
  intro names
  induction names with
  | nil => intro used counter; simp [buildPlanGo]
  | cons name rest ih =>
    intro used counter
    obtain ⟨ih1, ih2, ih3⟩ :=
      ih (resolveCollision (renameStep reSub reSearch rules nb name counter).1 used :: used)
        (renameStep reSub reSearch rules nb name counter).2
    refine ⟨?_, ?_, ?_⟩
    · simp [buildPlanGo, ih1]
    · simp only [buildPlanGo, List.map_cons, List.nodup_cons]
      refine ⟨fun hmem => ?_, ih2⟩
      have := ih3 _ hmem
      simp at this
    · intro x hx
      simp only [buildPlanGo, List.map_cons, List.mem_cons] at hx
      rcases hx with rfl | hx
      · exact resolveCollision_not_mem _ _
      · have := ih3 x hx
        simp at this
        exact this.2

theorem buildPlanGo_skip (reSub : String → String → String → String)
    (reSearch : String → String → Bool) (rules : RenameRules) (nb : Numbering) :
    ∀ (names used : List String) (counter : Nat), (∀ n ∈ names, n ∈ used) →
      ∀ pair ∈ buildPlanGo reSub reSearch rules nb names used counter,
        shouldSkip reSearch (splitName pair.1).1 rules = true →
        ∃ j, 2 ≤ j ∧ pair.2 = candName (splitName pair.1).1 (splitName pair.1).2 j := by
  intro names
  induction names with
  | nil => intro used counter _ pair hp; simp [buildPlanGo] at hp
  | cons name rest ih =>
    intro used counter hsub pair hp hskip
    simp only [buildPlanGo, List.mem_cons] at hp
    rcases hp with rfl | hp
    · have hstep : (renameStep reSub reSearch rules nb name counter).1 = name := by
        simp only [renameStep, hskip]
        simp
      rw [hstep]
      have hmem : used.elem name = true :=
        List.elem_iff.mpr (hsub name (List.mem_cons_self name rest))
      unfold resolveCollision
      rw [if_pos hmem]
      obtain ⟨j, hj, he⟩ := resolveLoop_shape (splitName name).1 (splitName name).2 used
        (used.length + 1) 2
      exact ⟨j, hj, he⟩
    · exact ih _ _ (fun n hn => List.mem_cons_of_mem _ (hsub n (List.mem_cons_of_mem _ hn)))
        pair hp hskip

/-- C4: for every input list and rule, the plan has the same length as the
input, its `oldName`s are the input names in input order, and all
`newName`s are pairwise distinct. -/
theorem c4_plan_length_order_unique (reSub : String → String → String → String)
    (reSearch : String → String → Bool) (filenames : List String)
    (rules : RenameRules) :
    (buildPlanFromRules reSub reSearch filenames rules).length = filenames.length ∧
    (buildPlanFromRules reSub reSearch filenames rules).map Prod.fst = filenames ∧
    ((buildPlanFromRules reSub reSearch filenames rules).map Prod.snd).Nodup := by
  obtain ⟨h1, h2, _⟩ := buildPlanGo_spec reSub reSearch rules
    (rules.numbering.getD ⟨false, 1, 2, "", "", true⟩) filenames filenames
    (rules.numbering.getD ⟨false, 1, 2, "", "", true⟩).start
  refine ⟨?_, h1, h2⟩
  have := congrArg List.length h1
  simpa [buildPlanFromRules] using this

/-- C10: every `newName` in the plan differs from every original input
filename — `_resolve_collision` checks candidates against the set seeded
with all originals plus all previously produced names. -/
theorem c10_newName_never_an_original (reSub : String → String → String → String)
    (reSearch : String → String → Bool) (filenames : List String)
    (rules : RenameRules) :
    ∀ pair ∈ buildPlanFromRules reSub reSearch filenames rules,
      pair.2 ∉ filenames := by
  intro pair hp
  obtain ⟨_, _, h3⟩ := buildPlanGo_spec reSub reSearch rules
    (rules.numbering.getD ⟨false, 1, 2, "", "", true⟩) filenames filenames
    (rules.numbering.getD ⟨false, 1, 2, "", "", true⟩).start
  exact h3 pair.2 (List.mem_map_of_mem Prod.snd hp)

/-- Closed instance of C10 at a concrete input. -/
theorem c10_witness :
    (("a.txt", "a_2.txt") ∈ buildPlanFromRules reSubId reSearchNone ["a.txt"] c1Rules) ∧
    "a_2.txt" ∉ ["a.txt"] :=
  ⟨by decide, c10_newName_never_an_original reSubId reSearchNone ["a.txt"] c1Rules
    ("a.txt", "a_2.txt") (by decide)⟩

/-- C1 as stated is false: on `["a.TXT", "a.txt", "b.txt"]` with
`{case: lower, preserveExtensions: true}` the compiled plan is not the
spec's `[("a.TXT","a.txt"), ("a.txt","a_2.txt"), ("b.txt","b.txt")]` —
extensions keep their original case and every candidate collides with the
originals seeded into `used`, so no no-op pair is emitted. -/
theorem c1_counterexample :
    buildPlanFromRules reSubId reSearchNone ["a.TXT", "a.txt", "b.txt"] c1Rules ≠
      [("a.TXT", "a.txt"), ("a.txt", "a_2.txt"), ("b.txt", "b.txt")] := by decide

/-- C1 amended: the scenario actually compiles to
`[("a.TXT","a_2.TXT"), ("a.txt","a_2.txt"), ("b.txt","b_2.txt")]`: the
case transform lowers only the stem (the preserved extension keeps its
case), and since `used` is seeded with all originals, a computed name equal
to any original (its own included) is collision-suffixed, so an unchanged
name is never emitted as a no-op pair. -/
theorem c1_scenario_actual :
    buildPlanFromRules reSubId reSearchNone ["a.TXT", "a.txt", "b.txt"] c1Rules =
      [("a.TXT", "a_2.TXT"), ("a.txt", "a_2.txt"), ("b.txt", "b_2.txt")] := by decide

/-- Rules with a skip pattern, used for the C2 scenario (the oracle
`reSearchAll` makes the pattern match every stem, mirroring e.g. the
pattern `"a"` against stem `"a"`). -/
def c2Rules : RenameRules :=
  { preserve_extensions := true
    extension := ""
    caseMode := "upper"
    pfx := "P_"
    sfx := ""
    replace := []
    skip_if_matches := ["a"]
    numbering := none }

/-- C2 as stated is false: a filename whose stem matches a
`skipIfMatches` pattern does NOT pass through unchanged — after the skip
branch sets `new_name = name`, `_resolve_collision` still runs against
`used`, which was seeded with every original (the entry's own name
included), so the skipped name acquires a `_2` suffix. -/
theorem c2_counterexample :
    shouldSkip reSearchAll (splitName "a.txt").1 c2Rules = true ∧
    buildPlanFromRules reSubId reSearchAll ["a.txt"] c2Rules = [("a.txt", "a_2.txt")] ∧
    "a_2.txt" ≠ "a.txt" := by decide

/-- C2 amended: for every plan entry whose original stem matches a
`skipIfMatches` pattern, the `newName` is the original name with only a
collision suffix attached: it equals `stem ++ "_" ++ str(j) ++ ext` for
some probe index `j ≥ 2` of the original's own stem and extension — no
replace/case/prefix/suffix/numbering transform is applied, but the name
does not pass through unchanged. -/
theorem c2_skip_entry_is_collision_suffixed_original
    (reSub : String → String → String → String)
    (reSearch : String → String → Bool) (filenames : List String)
    (rules : RenameRules) :
    ∀ pair ∈ buildPlanFromRules reSub reSearch filenames rules,
      shouldSkip reSearch (splitName pair.1).1 rules = true →
      ∃ j, 2 ≤ j ∧ pair.2 = candName (splitName pair.1).1 (splitName pair.1).2 j := by
  intro pair hp hskip
  exact buildPlanGo_skip reSub reSearch rules
    (rules.numbering.getD ⟨false, 1, 2, "", "", true⟩) filenames filenames
    (rules.numbering.getD ⟨false, 1, 2, "", "", true⟩).start (fun n hn => hn) pair hp hskip

/-- Closed instance of the amended C2 at a concrete input. -/
theorem c2_witness :
    ((("a.txt", "a_2.txt") ∈ buildPlanFromRules reSubId reSearchAll ["a.txt"] c2Rules) ∧
      shouldSkip reSearchAll (splitName "a.txt").1 c2Rules = true) ∧
    ∃ j, 2 ≤ j ∧ "a_2.txt" = candName (splitName "a.txt").1 (splitName "a.txt").2 j :=
  ⟨⟨by decide, by decide⟩,
    c2_skip_entry_is_collision_suffixed_original reSubId reSearchAll ["a.txt"] c2Rules
      ("a.txt", "a_2.txt") (by decide) (by decide)⟩

/-- Rules for the C3 check: numbering enabled with
`{start: 1, padding: 3, skip_if_numbered: true}`. -/
def c3Rules : RenameRules :=
  { preserve_extensions := true
    extension := ""
    caseMode := "none"
    pfx := ""
    sfx := ""
    replace := []
    skip_if_matches := []
    numbering := some ⟨true, 1, 3, "", "", true⟩ }

/-- C3 evaluated at the failing input: with `skipIfNumbered` true, the
digit-led stem `"1"` is nevertheless numbered (it becomes `"001"`) and the
shared counter advances (the next file receives `"002"`), because the guard
`re.match(r"^\\d+", stem)` tests for a literal backslash-`d` prefix, never
for digits.  The claim (and the spec) say the entry should have kept its
stem and left the counter alone. -/
theorem c3_code_eval :
    buildPlanFromRules reSubId reSearchNone ["1.png", "x.png"] c3Rules =
      [("1.png", "001.png"), ("x.png", "002.png")] ∧
    matchesLiteralBackslashD "1" = false := by decide

/-! ### Image editor undo/redo history (`src/ui/image_editor_page.py`)

`_push_state`, `_undo` and `_redo` operate on the two Python lists
`self._undo_stack` / `self._redo_stack` whose elements are opaque
snapshots (`_capture_state()` results), modelled by a type parameter `σ`.
Stacks are modelled head-as-top: Python `list.append(x)` / `list.pop()`
act on the right end and become `x :: l` / `l.tail`, and `list.pop(0)`
(discarding the oldest) becomes `l.dropLast`. -/

/-- The two history stacks of the image editor page. -/
structure Hist (σ : Type) where
  undoStack : List σ
  redoStack : List σ
deriving DecidableEq

/-- `_push_state`, with the freshly captured snapshot `s`: append to the
undo stack, discard the oldest entry if the length now exceeds 30, clear
the redo stack. -/
def pushState (h : Hist σ) (s : σ) : Hist σ :=
  { undoStack :=
      if (s :: h.undoStack).length > 30 then (s :: h.undoStack).dropLast
      else s :: h.undoStack
    redoStack := [] }

/-- `_undo`: no-op when at most one snapshot is left; otherwise move the
top snapshot to the redo stack and restore (second component) the new top. -/
def undoStep : Hist σ → Hist σ × Option σ
  | ⟨[], r⟩ => (⟨[], r⟩, none)
  | ⟨[s], r⟩ => (⟨[s], r⟩, none)
  | ⟨top :: next :: rest, r⟩ => (⟨next :: rest, top :: r⟩, some next)

/-- `_redo`: no-op when the redo stack is empty; otherwise move its top
back onto the undo stack and restore (second component) it. -/
def redoStep : Hist σ → Hist σ × Option σ
  | ⟨u, []⟩ => (⟨u, []⟩, none)
  | ⟨u, s :: rest⟩ => (⟨s :: u, rest⟩, some s)

/-- A history-affecting user operation: a history-pushing edit (any
operation that calls `_push_state` after mutating the scene), an undo, or
a redo. -/
inductive EOp (σ : Type)
  | push (s : σ)
  | undo
  | redo

/-- Apply one operation to the stacks. -/
def applyOp (h : Hist σ) : EOp σ → Hist σ
  | .push s => pushState h s
  | .undo => (undoStep h).1
  | .redo => (redoStep h).1

/-- Apply a sequence of operations, oldest first. -/
def applyOps (h : Hist σ) (ops : List (EOp σ)) : Hist σ := ops.foldl applyOp h

/-- Apply a sequence of history-pushing operations. -/
def pushAll (h : Hist σ) (ss : List σ) : Hist σ := ss.foldl pushState h

/-- Repeated `_undo` until it becomes a no-op: returns the restored
snapshots in restore order together with the final stacks. -/
def undoAllGo : List σ → List σ → List σ × Hist σ
  | [], r => ([], ⟨[], r⟩)
  | [s], r => ([], ⟨[s], r⟩)
  | top :: next :: rest, r =>
    ((next :: (undoAllGo (next :: rest) (top :: r)).1),
      (undoAllGo (next :: rest) (top :: r)).2)

/-- Run `_undo` until it is a no-op, starting from `h`. -/
def undoAll (h : Hist σ) : List σ × Hist σ := undoAllGo h.undoStack h.redoStack

theorem undoAllGo_fst (σ : Type) :
    ∀ (l r : List σ), (undoAllGo l r).1 = l.tail := by
  intro l
  induction l with
  | nil => intro r; rfl
  | cons top tl ih =>
    intro r
    cases tl with
    | nil => rfl
    | cons next rest => simp [undoAllGo, ih]

theorem undoAllGo_snd (σ : Type) :
    ∀ (l r : List σ), l ≠ [] →
      (undoAllGo l r).2.undoStack.length = 1 ∧
      (undoAllGo l r).2.undoStack.head? = l.getLast? := by
  intro l
  induction l with
  | nil => intro r h; exact absurd rfl h
  | cons top tl ih =>
    intro r _
    cases tl with
    | nil => simp [undoAllGo]
    | cons next rest =>
      have := ih (top :: r) (by simp)
      simpa [undoAllGo, List.getLast?_cons_cons] using this

theorem pushState_undoStack (h : Hist σ) (s : σ) (hle : h.undoStack.length ≤ 30) :
    (pushState h s).undoStack = (s :: h.undoStack).take 30 := by
  simp only [pushState]
  split
  case isTrue hgt =>
    have hlen : (s :: h.undoStack).length = 31 := by
      simp only [List.length_cons] at hgt ⊢
      omega
    rw [List.dropLast_eq_take, hlen]
  case isFalse hgt =>
    rw [List.take_of_length_le]
    simp only [List.length_cons] at hgt ⊢
    omega

theorem take_append_take (A B : List α) (n : Nat) :
    (A ++ B.take n).take n = (A ++ B).take n := by
  rw [List.take_append_eq_append_take, List.take_append_eq_append_take, List.take_take]
  congr 1
  rw [min_eq_left (Nat.sub_le n A.length)]

theorem pushAll_undoStack (σ : Type) :
    ∀ (ss : List σ) (h : Hist σ), h.undoStack.length ≤ 30 →
      (pushAll h ss).undoStack = (ss.reverse ++ h.undoStack).take 30 := by
  intro ss
  induction ss with
  | nil =>
    intro h hle
    simp only [pushAll, List.foldl_nil, List.reverse_nil, List.nil_append]
    rw [List.take_of_length_le hle]
  | cons s ss ih =>
    intro h hle
    have hstep := pushState_undoStack h s hle
    have hle' : (pushState h s).undoStack.length ≤ 30 := by
      rw [hstep]; exact List.length_take_le _ _
    calc (pushAll h (s :: ss)).undoStack
        = (pushAll (pushState h s) ss).undoStack := rfl
      _ = (ss.reverse ++ (pushState h s).undoStack).take 30 := ih (pushState h s) hle'
      _ = (ss.reverse ++ (s :: h.undoStack).take 30).take 30 := by rw [hstep]
      _ = (ss.reverse ++ (s :: h.undoStack)).take 30 := take_append_take _ _ _
      _ = ((s :: ss).reverse ++ h.undoStack).take 30 := by
          rw [List.reverse_cons, List.append_assoc, List.singleton_append]

theorem applyOp_sum_le (h : Hist σ) (op : EOp σ)
    (hinv : h.undoStack.length + h.redoStack.length ≤ 30) :
    (applyOp h op).undoStack.length + (applyOp h op).redoStack.length ≤ 30 := by
  obtain ⟨u, r⟩ := h
  simp only at hinv
  cases op with
  | push s =>
    simp only [applyOp, pushState, List.length_nil, Nat.add_zero]
    split
    case isTrue h' => simp only [List.length_dropLast, List.length_cons]; omega
    case isFalse h' => simp only [List.length_cons] at h' ⊢; omega
  | undo =>
    cases u with
    | nil => simpa [applyOp, undoStep] using hinv
    | cons a t =>
      cases t with
      | nil => simpa [applyOp, undoStep] using hinv
      | cons b t' =>
        simp only [applyOp, undoStep]
        simp at hinv ⊢
        omega
  | redo =>
    cases r with
    | nil => simpa [applyOp, redoStep] using hinv
    | cons a t =>
      simp only [applyOp, redoStep]
      simp at hinv ⊢
      omega

theorem applyOps_sum_le (σ : Type) :
    ∀ (ops : List (EOp σ)) (h : Hist σ),
      h.undoStack.length + h.redoStack.length ≤ 30 →
      (applyOps h ops).undoStack.length + (applyOps h ops).redoStack.length ≤ 30 := by
  intro ops
  induction ops with
  | nil => intro h hinv; simpa [applyOps] using hinv
  | cons op ops ih =>
    intro h hinv
    have h1 := applyOp_sum_le h op hinv
    have := ih (applyOp h op) h1
    simpa [applyOps] using this

set_option maxRecDepth 10000 in
/-- C5 as stated is false: after `N = 31 > 30` history-pushing operations
on a fresh editor, repeating `undo()` until it becomes a no-op restores 29
distinct prior states, not 30 (the 30 retained snapshots include the
current state, and `_undo` refuses to pop the last remaining snapshot). -/
theorem c5_counterexample :
    30 < (List.range 31).length ∧ (List.range 31).Nodup ∧
    (undoAll (pushAll (⟨[], []⟩ : Hist Nat) (List.range 31))).1.length = 29 ∧
    (undoAll (pushAll (⟨[], []⟩ : Hist Nat) (List.range 31))).1.length ≠ 30 := by decide

/-- C5 amended: the undo stack never exceeds 30 snapshots under any
operation sequence (oldest discarded on overflow), and after N > 30
history-pushing operations with pairwise-distinct snapshots, repeating
`undo()` until it becomes a no-op restores exactly 29 distinct prior
states (all of them among the pushed snapshots), never underflowing: the
run stops with exactly the oldest retained snapshot still on the stack. -/
theorem c5_undo_bound_amended (σ : Type) :
    (∀ ops : List (EOp σ), (applyOps ⟨[], []⟩ ops).undoStack.length ≤ 30) ∧
    (∀ (h : Hist σ) (ss : List σ), h.undoStack.length ≤ 30 → 31 ≤ ss.length →
      ss.Nodup →
      (undoAll (pushAll h ss)).1.length = 29 ∧
      (undoAll (pushAll h ss)).1.Nodup ∧
      (∀ x ∈ (undoAll (pushAll h ss)).1, x ∈ ss) ∧
      (undoAll (pushAll h ss)).2.undoStack.length = 1 ∧
      (undoAll (pushAll h ss)).2.undoStack.head? = (pushAll h ss).undoStack.getLast?) := by
  constructor
  · intro ops
    have := applyOps_sum_le σ ops ⟨[], []⟩ (by simp)
    omega
  · intro h ss hle hlen hnodup
    have hstack : (pushAll h ss).undoStack = ss.reverse.take 30 := by
      rw [pushAll_undoStack σ ss h hle, List.take_append_of_le_length]
      simpa using by omega
    have hsl : (ss.reverse.take 30).length = 30 := by
      rw [List.length_take]
      simp only [List.length_reverse]
      omega
    have hfst : (undoAll (pushAll h ss)).1 = (ss.reverse.take 30).tail := by
      rw [undoAll, undoAllGo_fst, hstack]
    have hsub : (ss.reverse.take 30).tail.Sublist ss.reverse :=
      (List.tail_sublist _).trans (List.take_sublist _ _)
    refine ⟨?_, ?_, ?_, ?_, ?_⟩
    · rw [hfst, List.length_tail, hsl]
    · rw [hfst]
      exact hsub.nodup (List.nodup_reverse.mpr hnodup)
    · intro x hx
      rw [hfst] at hx
      exact List.mem_reverse.mp (hsub.subset hx)
    · rw [undoAll]
      have := (undoAllGo_snd σ (pushAll h ss).undoStack (pushAll h ss).redoStack
        (by rw [hstack]; intro hnil; rw [hnil] at hsl; simp at hsl)).1
      exact this
    · rw [undoAll]
      exact (undoAllGo_snd σ (pushAll h ss).undoStack (pushAll h ss).redoStack
        (by rw [hstack]; intro hnil; rw [hnil] at hsl; simp at hsl)).2

set_option maxRecDepth 10000 in
/-- Closed instance of the amended C5 at a concrete input. -/
theorem c5_witness :
    (31 ≤ (List.range 31).length ∧ (List.range 31).Nodup) ∧
    (undoAll (pushAll (⟨[], []⟩ : Hist Nat) (List.range 31))).1.length = 29 :=
  ⟨⟨by decide, by decide⟩,
    ((c5_undo_bound_amended Nat).2 ⟨[], []⟩ (List.range 31) (by decide) (by decide)
      (by decide)).1⟩

/-- C6: every history-pushing operation clears the redo stack, so a
history-pushing operation performed after an `undo()` leaves the redo
stack empty and a subsequent `redo()` is a no-op: it changes neither stack
and restores nothing. -/
theorem c6_redo_invalidation (σ : Type) (h : Hist σ) (s : σ) :
    (pushState h s).redoStack = [] ∧
    redoStep (pushState (undoStep h).1 s) = (pushState (undoStep h).1 s, none) := by
  exact ⟨rfl, rfl⟩

/-! ### Export region recomputation (`src/ui/image_editor_page.py`)

`_apply_resize` rescales the base pixmap to the new spinbox dimensions and
then calls `_on_base_size_changed`, which (when an export rectangle and a
remembered base size exist) rescales `self._export_base_rect` by
`new/old` per axis and re-centres it on its previous centre.  `QRectF`
arithmetic over IEEE doubles is modelled over `ℚ`.  A rectangle is
`(x, y, w, h)`; `QRectF.center` is `(x + w/2, y + h/2)` and
`QRectF.moveCenter(c)` translates the rectangle so its centre becomes `c`
while keeping its size. -/

/-- A `QRectF` value. -/
structure RectQ where
  x : ℚ
  y : ℚ
  w : ℚ
  h : ℚ
deriving DecidableEq

/-- `QRectF.center()`. -/
def RectQ.center (r : RectQ) : ℚ × ℚ := (r.x + r.w / 2, r.y + r.h / 2)

/-- `QRectF.moveCenter(c)`. -/
def RectQ.moveCenter (r : RectQ) (c : ℚ × ℚ) : RectQ :=
  ⟨c.1 - r.w / 2, c.2 - r.h / 2, r.w, r.h⟩

/-- `_on_base_size_changed`, in the state where both
`self._export_base_rect` (`rect`) and `self._export_base_size`
(`oldSize`, the previous base pixmap dimensions) are present, observing the
new pixmap dimensions `newW × newH`: scale factors are
`new / max(1, old)` per axis, and the scaled rectangle is re-centred on the
old centre. -/
def onBaseSizeChanged (oldSize : ℚ × ℚ) (rect : RectQ) (newW newH : ℚ) : RectQ :=
  RectQ.moveCenter ⟨0, 0, rect.w * (newW / max 1 oldSize.1), rect.h * (newH / max 1 oldSize.2)⟩
    (rect.center)

/-- C7: resizing the base layer uniformly by a factor `k ∈ {1/2, 1, 2}`
(new pixel dimensions `k * old`) scales the export region's width and
height by `k` and keeps its centre fixed. -/
theorem c7_export_region_scales_about_center (rect : RectQ) (oldW oldH k : ℚ)
    (_hk : k = 1 / 2 ∨ k = 1 ∨ k = 2) (hw : 1 ≤ oldW) (hh : 1 ≤ oldH) :
    (onBaseSizeChanged (oldW, oldH) rect (k * oldW) (k * oldH)).w = k * rect.w ∧
    (onBaseSizeChanged (oldW, oldH) rect (k * oldW) (k * oldH)).h = k * rect.h ∧
    (onBaseSizeChanged (oldW, oldH) rect (k * oldW) (k * oldH)).center = rect.center := by
  have hw0 : oldW ≠ 0 := by intro h; rw [h] at hw; norm_num at hw
  have hh0 : oldH ≠ 0 := by intro h; rw [h] at hh; norm_num at hh
  have hmw : max 1 oldW = oldW := max_eq_right hw
  have hmh : max 1 oldH = oldH := max_eq_right hh
  have hsw : k * oldW / oldW = k := by field_simp
  have hsh : k * oldH / oldH = k := by field_simp
  refine ⟨?_, ?_, ?_⟩
  · simp only [onBaseSizeChanged, RectQ.moveCenter, hmw, hsw]
    ring
  · simp only [onBaseSizeChanged, RectQ.moveCenter, hmh, hsh]
    ring
  · simp only [onBaseSizeChanged, RectQ.moveCenter, RectQ.center, hmw, hmh, hsw, hsh]
    refine Prod.ext ?_ ?_ <;> simp

/-- Closed instance of C7 at a concrete input (`k = 2`, a 2x2 base with
export rectangle `(1, 1, 4, 2)`). -/
theorem c7_witness :
    (((2 : ℚ) = 1 / 2 ∨ (2 : ℚ) = 1 ∨ (2 : ℚ) = 2) ∧ (1 : ℚ) ≤ 2) ∧
    ((onBaseSizeChanged ((2 : ℚ), (2 : ℚ)) ⟨1, 1, 4, 2⟩ (2 * 2) (2 * 2)).w = 2 * 4 ∧
      (onBaseSizeChanged ((2 : ℚ), (2 : ℚ)) ⟨1, 1, 4, 2⟩ (2 * 2) (2 * 2)).h = 2 * 2 ∧
      (onBaseSizeChanged ((2 : ℚ), (2 : ℚ)) ⟨1, 1, 4, 2⟩ (2 * 2) (2 * 2)).center =
        RectQ.center ⟨1, 1, 4, 2⟩) :=
  ⟨⟨by norm_num, by norm_num⟩,
    c7_export_region_scales_about_center ⟨1, 1, 4, 2⟩ 2 2 2 (by norm_num) (by norm_num)
      (by norm_num)⟩

/-! ### Download pipeline (`_download_candidates` in
`src/ui/image_downloader_page.py`)

External effects are oracles: `fetch url` models `requests.get` (`none`
when it raises; otherwise status, raw `Content-Type` header and body
bytes), `decode body` models `PIL.Image.open(...).size` (`none` when it
raises), `digest body` models `hashlib.sha256(body).hexdigest()`, and
`urlFileName url` models `Path(urlparse(url).path).name`.  Bytes are
`List Nat`.  The destination folder is a list of (name, content) files;
`open(target, "wb").write(data)` appends (the target is fresh by
`_unique_path`).  Aspect-ratio arithmetic over Python floats is modelled
over `ℚ`. -/

/-- An HTTP response as `_download_candidates` consumes it. -/
structure Response where
  status : Nat
  contentType : String
  body : List Nat

/-- Python `str.split(c)` on character lists (keeps empty pieces). -/
def splitChar (c : Char) : List Char → List (List Char)
  | [] => [[]]
  | x :: xs =>
    if x = c then [] :: splitChar c xs
    else
      match splitChar c xs with
      | [] => [[x]]
      | h :: t => (x :: h) :: t

/-- Python `str.strip()` (whitespace at both ends). -/
def trimChars (l : List Char) : List Char :=
  ((l.dropWhile Char.isWhitespace).reverse.dropWhile Char.isWhitespace).reverse

/-- `resp.headers.get("Content-Type", "").split(";")[0].strip()`. -/
def contentTypeOf (raw : String) : String :=
  (trimChars ((splitChar ';' raw.data).headD [])).asString

/-- The allowed MIME types. -/
def allowedTypes : List String := ["image/jpeg", "image/png", "image/webp", "image/avif"]

/-- The fixed icon-size set `{16, 32, 48, 64, 96, 128, 150}`. -/
def iconSizes : List Nat := [16, 32, 48, 64, 96, 128, 150]

/-- The mutable state of one `_download_candidates` call: the `saved`
counter, the `seen_hashes` and `saved_urls` sets, and the destination
folder's files. -/
structure DlState where
  saved : Nat
  seenHashes : List String
  savedUrls : List String
  files : List (String × List Nat)

/-- `_unique_path(folder, name)`: the name itself when free, else
`f"{stem}_{idx}{suffix}"` probing `idx = 1, 2, ...`, where the suffix
falls back to `".jpg"` when empty. -/
def uniquePath (files : List String) (name : String) : String :=
  if files.elem name then
    let p := splitName name
    resolveLoop p.1 (if p.2 = "" then ".jpg" else p.2) files (files.length + 1) 1
  else name

/-- One candidate iteration of the `attempt` closure (the body of its
`for` loop after the `break`/`saved_urls` checks), with the pass's
thresholds `minPixels`/`minBytes`/`maxAspect`. -/
def dlStep (fetch : String → Option Response) (decode : List Nat → Option (Nat × Nat))
    (digest : List Nat → String) (urlFileName : String → String)
    (minPixels minBytes : Nat) (maxAspect : ℚ) (st : DlState) (url : String) : DlState :=
  if st.savedUrls.elem url then st
  else
    match fetch url with
    | none => st
    | some resp =>
      if resp.status ≠ 200 then st
      else if allowedTypes.elem (contentTypeOf resp.contentType) = false then st
      else if resp.body.length < minBytes then st
      else
        match decode resp.body with
        | none => st
        | some wh =>
          if wh.1 * wh.2 < minPixels then st
          else if wh.1 == wh.2 && iconSizes.elem wh.1 then st
          else if maxAspect ≤ ((max wh.1 wh.2 : Nat) : ℚ) / ((max 1 (min wh.1 wh.2) : Nat) : ℚ)
            then st
          else if st.seenHashes.elem (digest resp.body) then st
          else
            { saved := st.saved + 1
              seenHashes := digest resp.body :: st.seenHashes
              savedUrls := url :: st.savedUrls
              files := st.files ++
                [(uniquePath (st.files.map Prod.fst)
                    (if urlFileName url = "" then "image_" ++ natRepr (st.saved + 1) ++ ".jpg"
                     else urlFileName url),
                  resp.body)] }

/-- The `attempt(min_pixels, min_bytes, max_ratio)` closure: iterate the
candidates in order, stopping once `saved` reaches `limit`. -/
def dlAttempt (fetch : String → Option Response) (decode : List Nat → Option (Nat × Nat))
    (digest : List Nat → String) (urlFileName : String → String) (limit : Nat)
    (minPixels minBytes : Nat) (maxAspect : ℚ) :
    List (String × Int) → DlState → DlState
  | [], st => st
  | (url, _) :: rest, st =>
    if limit ≤ st.saved then st
    else dlAttempt fetch decode digest urlFileName limit minPixels minBytes maxAspect rest
      (dlStep fetch decode digest urlFileName minPixels minBytes maxAspect st url)

/-- `_download_candidates(candidates, folder, headers, limit, ...)`:
pass 1 with (40000 px², 5 KB, ratio < 10), then, if fewer than
`min(3, limit)` images were saved, pass 2 with (10000 px², 2 KB,
ratio < 20); returns the `saved` count (and the final state, for the
theorems). -/
def downloadCandidates (fetch : String → Option Response)
    (decode : List Nat → Option (Nat × Nat)) (digest : List Nat → String)
    (urlFileName : String → String) (candidates : List (String × Int))
    (initFiles : List (String × List Nat)) (limit : Nat) : Nat × DlState :=
  let st1 := dlAttempt fetch decode digest urlFileName limit 40000 (5 * 1024) 10 candidates
    ⟨0, [], [], initFiles⟩
  let st2 :=
    if st1.saved < min 3 limit then
      dlAttempt fetch decode digest urlFileName limit 10000 (2 * 1024) 20 candidates st1
    else st1
  (st2.saved, st2)

/-- What one call segment of the pipeline does to the state: it appends
`new` saved files, counts them, pushes their (pairwise distinct, unseen)
digests onto `seen_hashes`. -/
def DlExtends (digest : List Nat → String) (st st' : DlState) : Prop :=
  ∃ new : List (String × List Nat),
    st'.files = st.files ++ new ∧
    st'.saved = st.saved + new.length ∧
    st'.seenHashes = (new.map (fun f => digest f.2)).reverse ++ st.seenHashes ∧
    (new.map (fun f => digest f.2)).Nodup ∧
    ∀ d ∈ new.map (fun f => digest f.2), d ∉ st.seenHashes

theorem dlExtends_refl (digest : List Nat → String) (st : DlState) :
    DlExtends digest st st := by
  exact ⟨[], by simp, by simp, by simp, by simp, by simp⟩

theorem dlExtends_trans (digest : List Nat → String) (st st' st'' : DlState)
    (h1 : DlExtends digest st st') (h2 : DlExtends digest st' st'') :
    DlExtends digest st st'' := by
  obtain ⟨n1, f1, s1, e1, d1, u1⟩ := h1
  obtain ⟨n2, f2, s2, e2, d2, u2⟩ := h2
  refine ⟨n1 ++ n2, ?_, ?_, ?_, ?_, ?_⟩
  · rw [f2, f1, List.append_assoc]
  · rw [s2, s1, List.length_append]; omega
  · rw [e2, e1, List.map_append, List.reverse_append, List.append_assoc]
  · rw [List.map_append, List.nodup_append]
    refine ⟨d1, d2, ?_⟩
    intro d hd hd2
    have : d ∉ st'.seenHashes := u2 d hd2
    rw [e1] at this
    exact this (List.mem_append_left _ (List.mem_reverse.mpr hd))
  · intro d hd
    rw [List.map_append, List.mem_append] at hd
    rcases hd with hd | hd
    · exact u1 d hd
    · intro hmem
      exact u2 d hd (by rw [e1]; exact List.mem_append_right _ hmem)

theorem dlStep_extends (fetch : String → Option Response)
    (decode : List Nat → Option (Nat × Nat)) (digest : List Nat → String)
    (urlFileName : String → String) (minPixels minBytes : Nat) (maxAspect : ℚ)
    (st : DlState) (url : String) :
    DlExtends digest st (dlStep fetch decode digest urlFileName minPixels minBytes
      maxAspect st url) := by
  unfold dlStep
  split
  · exact dlExtends_refl digest st
  split
  · exact dlExtends_refl digest st
  case h_2 resp hresp =>
    split
    · exact dlExtends_refl digest st
    split
    · exact dlExtends_refl digest st
    split
    · exact dlExtends_refl digest st
    split
    · exact dlExtends_refl digest st
    case h_2 wh hwh =>
      split
      · exact dlExtends_refl digest st
      split
      · exact dlExtends_refl digest st
      split
      · exact dlExtends_refl digest st
      split
      · exact dlExtends_refl digest st
      case isFalse hseen =>
        refine ⟨[(uniquePath (st.files.map Prod.fst)
            (if urlFileName url = "" then "image_" ++ natRepr (st.saved + 1) ++ ".jpg"
             else urlFileName url), resp.body)], by simp, by simp, by simp, by simp, ?_⟩
        intro d hd
        simp only [List.map_cons, List.map_nil, List.mem_singleton] at hd
        subst hd
        intro hmem
        exact hseen (List.elem_iff.mpr hmem)

theorem dlAttempt_extends (fetch : String → Option Response)
    (decode : List Nat → Option (Nat × Nat)) (digest : List Nat → String)
    (urlFileName : String → String) (limit minPixels minBytes : Nat) (maxAspect : ℚ) :
    ∀ (candidates : List (String × Int)) (st : DlState),
      DlExtends digest st (dlAttempt fetch decode digest urlFileName limit minPixels
        minBytes maxAspect candidates st) := by
  intro candidates
  induction candidates with
  | nil => intro st; exact dlExtends_refl digest st
  | cons c rest ih =>
    intro st
    obtain ⟨url, score⟩ := c
    simp only [dlAttempt]
    split
    · exact dlExtends_refl digest st
    · exact dlExtends_trans digest _ _ _
        (dlStep_extends fetch decode digest urlFileName minPixels minBytes maxAspect st url)
        (ih _)

theorem filter_body_le_one (digest : List Nat → String) :
    ∀ (l : List (String × List Nat)), (l.map (fun f => digest f.2)).Nodup →
      ∀ body : List Nat, (l.filter (fun f => f.2 == body)).length ≤ 1 := by
  intro l
  induction l with
  | nil => intro _ body; simp
  | cons x rest ih =>
    intro hnodup body
    simp only [List.map_cons, List.nodup_cons] at hnodup
    obtain ⟨hx, hrest⟩ := hnodup
    rw [List.filter_cons]
    split
    case isTrue hb =>
      have hxb : x.2 = body := by simpa using hb
      have hempty : rest.filter (fun f => f.2 == body) = [] := by
        rw [List.filter_eq_nil_iff]
        intro y hy hyb
        apply hx
        have hyb' : y.2 = body := by simpa using hyb
        have : digest y.2 = digest x.2 := by rw [hyb', hxb]
        rw [← this]
        exact List.mem_map_of_mem _ hy
      simp [hempty]
    case isFalse hb => exact (ih hrest body).trans (by omega)

/-- C9: the files saved by one `_download_candidates` call have pairwise
distinct SHA-256 digests of their raw bytes — so of any set of candidate
URLs whose downloads return byte-identical bodies, at most one file is
saved — and the returned count is exactly the number of files actually
written to the destination folder. -/
theorem c9_content_hash_dedup (fetch : String → Option Response)
    (decode : List Nat → Option (Nat × Nat)) (digest : List Nat → String)
    (urlFileName : String → String) (candidates : List (String × Int))
    (initFiles : List (String × List Nat)) (limit : Nat) :
    ∃ new : List (String × List Nat),
      (downloadCandidates fetch decode digest urlFileName candidates initFiles limit).2.files
        = initFiles ++ new ∧
      (downloadCandidates fetch decode digest urlFileName candidates initFiles limit).1
        = new.length ∧
      (new.map (fun f => digest f.2)).Nodup ∧
      ∀ body : List Nat, (new.filter (fun f => f.2 == body)).length ≤ 1 := by
  have h1 := dlAttempt_extends fetch decode digest urlFileName limit 40000 (5 * 1024) 10
    candidates ⟨0, [], [], initFiles⟩
  have hfull : DlExtends digest ⟨0, [], [], initFiles⟩
      (downloadCandidates fetch decode digest urlFileName candidates initFiles limit).2 := by
    simp only [downloadCandidates]
    split
    · exact dlExtends_trans digest _ _ _ h1 (dlAttempt_extends fetch decode digest
        urlFileName limit 10000 (2 * 1024) 20 candidates _)
    · exact h1
  obtain ⟨new, hf, hs, _, hd, _⟩ := hfull
  refine ⟨new, hf, ?_, hd, filter_body_le_one digest new hd⟩
  simpa [downloadCandidates] using hs

/-! ### Candidate collection (`_collect_candidates` in
`src/ui/image_downloader_page.py`)

The parsed HTML document is modelled as the data the BeautifulSoup queries
in `_collect_candidates` return (the spec's "HTML parse collaborator"):
the `content` of the first matching meta tag for each of the four queries,
the legacy `link[rel=image_src]` `href`, each `<picture>`'s `<source>`
attribute lists, each `<img>`'s attribute list, the `style` attribute of
every tag carrying one, and every tag's attribute list for the `data-*`
scan.  Attribute values are strings (BeautifulSoup's list-valued
attributes are joined by the source before use).

`urljoin` (from `urllib.parse`) and `_strip_size_params` (a pure
`urlparse`/`parse_qsl`/`urlencode` round-trip dropping the keys
`w`/`h`/`width`/`height`) are oracle parameters; the concrete regexes of
`_upgrade_url`, `_extract_width` and the `background-image` style scan are
implemented with Python `re` semantics. -/

/-- Python `str.strip()` as a `String` function. -/
def strTrim (s : String) : String := (trimChars s.data).asString

/-- Python `str.endswith`. -/
def strEndsWith (s suf : String) : Bool := suf.data.isSuffixOf s.data

/-- Python `pat in s` substring test. -/
def containsSub (s pat : String) : Bool := s.data.tails.any (fun t => pat.data.isPrefixOf t)

/-- Case-insensitive literal-prefix test (the pattern is given lowercase). -/
def ciPrefix (pat : String) (l : List Char) : Bool :=
  pat.data.isPrefixOf (l.map Char.toLower)

/-- Python truthiness of an optional attribute value. -/
def truthy : Option String → Bool
  | none => false
  | some s => s ≠ ""

/-- Python `a or b` over optional attribute values (`None` and `""` are
falsy), as in `source.get("srcset") or source.get("data-srcset")`. -/
def pyOr (a b : Option String) : Option String :=
  match a with
  | some s => if s = "" then b else some s
  | none => b

/-- `tag.get(attr)` over an attribute list. -/
def getAttr (attrs : List (String × String)) (k : String) : Option String :=
  (attrs.find? (fun p => p.1 == k)).map Prod.snd

/-- `_normalize_url(url, base_url)`: strip, promote protocol-relative URLs
to `https`, discard `data:` URIs, else resolve against the base with
`urljoin`. -/
def normalizeUrl (urljoin : String → String → String) (baseUrl url : String) :
    Option String :=
  if strStartsWith (strTrim url) "//" then some ("https:" ++ strTrim url)
  else if strStartsWith (strTrim url) "data:" then none
  else some (urljoin baseUrl (strTrim url))

/-- One match attempt of `/s\d+x\d+/` at the head of the list; on success
returns the remainder after the match. -/
def trySized (l : List Char) : Option (List Char) :=
  match l with
  | '/' :: 's' :: rest =>
    if (rest.takeWhile Char.isDigit).isEmpty then none
    else
      match rest.drop (rest.takeWhile Char.isDigit).length with
      | 'x' :: rest2 =>
        if (rest2.takeWhile Char.isDigit).isEmpty then none
        else
          match rest2.drop (rest2.takeWhile Char.isDigit).length with
          | '/' :: rest3 => some rest3
          | _ => none
      | _ => none
  | _ => none

/-- `re.sub(r"/s\d+x\d+/", "/s1080x1080/", url)`: leftmost,
non-overlapping, scanning resumes after each match; `fuel` larger than the
list length is always sufficient (each step consumes at least one
character). -/
def subSizedGo : Nat → List Char → List Char
  | 0, l => l
  | _ + 1, [] => []
  | fuel + 1, x :: xs =>
    match trySized (x :: xs) with
    | some rest => "/s1080x1080/".data ++ subSizedGo fuel rest
    | none => x :: subSizedGo fuel xs

/-- String wrapper for `subSizedGo`. -/
def subSized (s : String) : String := (subSizedGo (s.data.length + 1) s.data).asString

/-- One match attempt of `(_s|-sm|_small|-small|thumb)` (IGNORECASE) at
the head of the list, returning the matched length.  Python tries the
alternatives in order, so `_s` shadows `_small` and `-sm` shadows
`-small`: `"_small"` matches as `"_s"` (leaving `"mall"`), exactly as
`re.sub` does on the source pattern. -/
def smallTokenLen (l : List Char) : Option Nat :=
  if ciPrefix "_s" l then some 2
  else if ciPrefix "-sm" l then some 3
  else if ciPrefix "_small" l then some 6
  else if ciPrefix "-small" l then some 6
  else if ciPrefix "thumb" l then some 5
  else none

/-- `re.sub(r"(_s|-sm|_small|-small|thumb)", "large", url, flags=IGNORECASE)`. -/
def subSmallGo : Nat → List Char → List Char
  | 0, l => l
  | _ + 1, [] => []
  | fuel + 1, x :: xs =>
    match smallTokenLen (x :: xs) with
    | some n => "large".data ++ subSmallGo fuel ((x :: xs).drop n)
    | none => x :: subSmallGo fuel xs

/-- String wrapper for `subSmallGo`. -/
def subSmall (s : String) : String := (subSmallGo (s.data.length + 1) s.data).asString

/-- `_upgrade_url(url)`: size-segment normalisation, small-token
replacement, then `_strip_size_params` (oracle). -/
def upgradeUrl (stripSizeParams : String → String) (url : String) : String :=
  stripSizeParams (subSmall (subSized url))

/-- `int(...)` of a decimal digit run. -/
def digitsToNat (l : List Char) : Nat := l.foldl (fun a c => a * 10 + (c.toNat - 48)) 0

/-- Backtracking for `(\d+)w` anchored at the current position: try the
maximal digit run first, then shorter ones, each requiring a following
`'w'`. -/
def widthDown (l : List Char) : Nat → Option Nat
  | 0 => none
  | k + 1 =>
    if l.get? (k + 1) == some 'w' then some (digitsToNat (l.take (k + 1)))
    else widthDown l k

/-- Leftmost search for `(\d+)w` (`re.search` in `_extract_width`). -/
def ewGo : List Char → Option Nat
  | [] => none
  | x :: xs =>
    match widthDown (x :: xs) ((x :: xs).takeWhile Char.isDigit).length with
    | some n => some n
    | none => ewGo xs

/-- `_extract_width(token)`: the first `(\d+)w` group as an int, else 0. -/
def extractWidth (token : String) : Nat := (ewGo token.data).getD 0

/-- Python `str.split()` (split on whitespace runs, no empty pieces). -/
def wsSplitGo (cur : List Char) : List Char → List (List Char)
  | [] => if cur.isEmpty then [] else [cur.reverse]
  | x :: xs =>
    if x.isWhitespace then
      if cur.isEmpty then wsSplitGo [] xs else cur.reverse :: wsSplitGo [] xs
    else wsSplitGo (x :: cur) xs

/-- The selection loop of `_best_from_srcset`: fold over the
comma-separated parts keeping the URL with the strictly largest declared
width (`-1` start, so the first URL wins when no widths are declared). -/
def bestFromSrcsetGo : List (List Char) → Option (List Char) → Int → Option (List Char)
  | [], best, _ => best
  | part :: rest, best, bw =>
    if (trimChars part).isEmpty then bestFromSrcsetGo rest best bw
    else
      match wsSplitGo [] (trimChars part) with
      | [] => bestFromSrcsetGo rest best bw
      | u :: more =>
        if bw < (extractWidth ((more.headD []).asString) : Int) then
          bestFromSrcsetGo rest (some u) (extractWidth ((more.headD []).asString) : Int)
        else bestFromSrcsetGo rest best bw

/-- `_best_from_srcset(srcset)`. -/
def bestFromSrcset (srcset : Option String) : Option String :=
  match srcset with
  | none => none
  | some s =>
    if s = "" then none
    else (bestFromSrcsetGo (splitChar ',' s.data) none (-1)).map List.asString

/-- The max-width loop of `_srcset_width`. -/
def srcsetWidthGo : List (List Char) → Nat → Nat
  | [], mx => mx
  | part :: rest, mx =>
    match wsSplitGo [] (trimChars part) with
    | _ :: b :: _ => srcsetWidthGo rest (max mx (extractWidth b.asString))
    | _ => srcsetWidthGo rest mx

/-- `_srcset_width(srcset)`: the largest declared width, 0 for a falsy
srcset. -/
def srcsetWidth (srcset : Option String) : Nat :=
  match srcset with
  | none => 0
  | some s => if s = "" then 0 else srcsetWidthGo (splitChar ',' s.data) 0

/-- One match attempt of
`background-image\s*:\s*url\(([^)]+)\)` (IGNORECASE) at the head of the
list: the literal property name, optional whitespace around `':'`, the
literal `url(`, then one or more non-`')'` characters captured up to a
closing `')'`. -/
def tryBgAt (l : List Char) : Option (List Char) :=
  if ciPrefix "background-image" l then
    match (l.drop 16).dropWhile Char.isWhitespace with
    | ':' :: r3 =>
      if ciPrefix "url(" (r3.dropWhile Char.isWhitespace) then
        if ((r3.dropWhile Char.isWhitespace).drop 4).takeWhile (fun c => c ≠ ')') = [] then
          none
        else
          if (((r3.dropWhile Char.isWhitespace).drop 4).dropWhile
                (fun c => c ≠ ')')).head? = some ')' then
            some (((r3.dropWhile Char.isWhitespace).drop 4).takeWhile (fun c => c ≠ ')'))
          else none
      else none
    | _ => none
  else none

/-- Leftmost search of the background-image pattern (`style_regex.search`). -/
def bgSearchGo : List Char → Option (List Char)
  | [] => none
  | x :: xs =>
    match tryBgAt (x :: xs) with
    | some c => some c
    | none => bgSearchGo xs

/-- The characters stripped from the captured URL: `" '\""`. -/
def bgStripSet : List Char := [' ', Char.ofNat 39, Char.ofNat 34]

/-- `match.group(1).strip(" '\"")` applied to a style attribute, if the
pattern matches. -/
def bgImageUrl (style : String) : Option String :=
  (bgSearchGo style.data).map (fun c =>
    (((c.dropWhile (fun x => bgStripSet.elem x)).reverse.dropWhile
        (fun x => bgStripSet.elem x)).reverse).asString)

/-- `_score_url(scored, url, score)`: dict update
`scored[url] = max(scored.get(url, -10**9), score)`, insertion order
preserved (the dict is an association list in insertion order). -/
def scoreUrl (scored : List (String × Int)) (url : String) (score : Int) :
    List (String × Int) :=
  if scored.any (fun p => p.1 == url) then
    scored.map (fun p => if p.1 == url then (p.1, max p.2 score) else p)
  else scored ++ [(url, max (-(10 ^ 9 : Int)) score)]

/-- The `add(url, score)` closure of `_collect_candidates`: skip falsy or
non-normalisable URLs, score the absolute URL, and score the upgraded URL
(+5) when the upgrade changed it. -/
def addCand (urljoin : String → String → String) (stripSizeParams : String → String)
    (baseUrl : String) (scored : List (String × Int)) (url : String) (score : Int) :
    List (String × Int) :=
  if url = "" then scored
  else
    match normalizeUrl urljoin baseUrl url with
    | none => scored
    | some absolute =>
      if absolute = "" then scored
      else
        if upgradeUrl stripSizeParams absolute ≠ absolute then
          scoreUrl (scoreUrl scored absolute score) (upgradeUrl stripSizeParams absolute)
            (score + 5)
        else scoreUrl scored absolute score

/-- The `<img>` attribute priority order. -/
def attrsPriority : List String :=
  ["data-srcset", "srcset", "data-src", "data-original", "data-lazy-src", "data-full",
    "data-large", "src"]

/-- The per-`<img>` scan: first truthy attribute in priority order wins;
srcset-bearing attributes contribute their best entry (50 when a declared
width reaches 1200, else 30) and stop; plain attributes contribute
directly (30 for `data-original`/`data-full`/`data-large`, else 10) and
stop. -/
def imgTagScan (add : List (String × Int) → String → Int → List (String × Int))
    (attrs : List (String × String)) :
    List String → List (String × Int) → List (String × Int)
  | [], scored => scored
  | attr :: restP, scored =>
    match getAttr attrs attr with
    | none => imgTagScan add attrs restP scored
    | some v =>
      if v = "" then imgTagScan add attrs restP scored
      else if containsSub attr "srcset" then
        match bestFromSrcset (some v) with
        | some best =>
          if best = "" then imgTagScan add attrs restP scored
          else add scored best (if 1200 ≤ srcsetWidth (some v) then 50 else 30)
        | none => imgTagScan add attrs restP scored
      else
        add scored v
          (if attr = "data-original" ∨ attr = "data-full" ∨ attr = "data-large" then 30
           else 10)

/-- The `data-*` attribute scan for one `(key, value)` attribute. -/
def dataAttrStep (add : List (String × Int) → String → Int → List (String × Int))
    (kv : String × String) (scored : List (String × Int)) : List (String × Int) :=
  if strStartsWith kv.1 "data-" = false then scored
  else if (["image", "img", "photo", "picture"].any
      (fun t => containsSub (strLower kv.1) t)) = false then scored
  else if kv.2 = "" then scored
  else if containsSub kv.1 "srcset" then
    match bestFromSrcset (some kv.2) with
    | some best => if best = "" then scored else add scored best 30
    | none => scored
  else add scored kv.2 20

/-- The penalty tokens of the final pass. -/
def penaltyTokens : List String := ["thumb", "thumbnail", "icon", "avatar", "logo"]

/-- The post-pass of `_collect_candidates`: −20 when the lowercased URL
contains a penalty token, a further −30 when it ends in `.svg`/`.gif`. -/
def penalize (p : String × Int) : String × Int :=
  (p.1,
    (if penaltyTokens.any (fun t => containsSub (strLower p.1) t) then p.2 - 20 else p.2) -
      (if strEndsWith (strLower p.1) ".svg" || strEndsWith (strLower p.1) ".gif" then 30
       else 0))

/-- `scored_final.sort(key=lambda item: item[1], reverse=True)`: Python's
sort is stable, and the unique stable descending arrangement is computed
by insertion sort under `b.2 ≤ a.2`. -/
def sortByScoreDesc (l : List (String × Int)) : List (String × Int) :=
  l.insertionSort (fun a b => b.2 ≤ a.2)

/-- The parsed document, as the BeautifulSoup queries of
`_collect_candidates` observe it: `metaContents` holds, in source query
order (`og:image`, `og:image:secure_url`, `twitter:image`,
`article:image`), the `content` of the first matching meta tag (`none`
when absent; a present tag without `content` behaves as `some ""`). -/
structure ImgDoc where
  metaContents : List (Option String)
  linkImageHref : Option String
  pictureSources : List (List (List (String × String)))
  imgs : List (List (String × String))
  styles : List String
  allTagAttrs : List (List (String × String))

/-- The scoring passes of `_collect_candidates(soup, base_url)` in source
order (meta tags, legacy link, picture sources, img tags, inline styles,
`data-*` attributes), before penalties and sorting. -/
def collectScored (urljoin : String → String → String)
    (stripSizeParams : String → String) (doc : ImgDoc) (baseUrl : String) :
    List (String × Int) :=
  let add := addCand urljoin stripSizeParams baseUrl
  let s1 := doc.metaContents.foldl (fun sc c =>
    match c with
    | some v => if v ≠ "" then add sc v 100 else sc
    | none => sc) []
  let s2 := match doc.linkImageHref with
    | some v => if v ≠ "" then add s1 v 90 else s1
    | none => s1
  let s3 := doc.pictureSources.foldl (fun sc srcs =>
    srcs.foldl (fun sc2 attrs =>
      match bestFromSrcset (pyOr (getAttr attrs "srcset") (getAttr attrs "data-srcset")) with
      | some best =>
        if best = "" then sc2
        else add sc2 best
          (if 1200 ≤ srcsetWidth (pyOr (getAttr attrs "srcset")
              (getAttr attrs "data-srcset")) then 50 else 30)
      | none => sc2) sc) s2
  let s4 := doc.imgs.foldl (fun sc attrs => imgTagScan add attrs attrsPriority sc) s3
  let s5 := doc.styles.foldl (fun sc st =>
    match bgImageUrl st with
    | some u => add sc u 20
    | none => sc) s4
  doc.allTagAttrs.foldl (fun sc attrs =>
    attrs.foldl (fun sc2 kv => dataAttrStep add kv sc2) sc) s5

/-- `_collect_candidates(soup, base_url)`: score, penalise, sort. -/
def collectCandidates (urljoin : String → String → String)
    (stripSizeParams : String → String) (doc : ImgDoc) (baseUrl : String) :
    List (String × Int) :=
  sortByScoreDesc ((collectScored urljoin stripSizeParams doc baseUrl).map penalize)

example : subSmall "https://ex.com/thumb.jpg" = "https://ex.com/large.jpg" := by decide
example : subSmall "a_small.png" = "alargemall.png" := by decide
example : subSized "h/s64x64/p.jpg" = "h/s1080x1080/p.jpg" := by decide
example : extractWidth "1200w" = 1200 := by decide
example : bestFromSrcset (some "a.jpg 100w, b.jpg 800w") = some "b.jpg" := by decide
example : srcsetWidth (some "a.jpg 100w, b.jpg 800w") = 800 := by decide
example : bgImageUrl "color: red; background-image: url('x.png')" = some "x.png" := by decide
example : containsSub "https://ex.com/thumb.jpg" "thumb" = true := by decide

/-- The C8 scenario document: one `og:image` meta tag and one plain
`<img src>` carrying the same URL `u`; nothing else. -/
def c8ScenarioDoc (u : String) : ImgDoc :=
  { metaContents := [some u, none, none, none]
    linkImageHref := none
    pictureSources := []
    imgs := [[("src", u)]]
    styles := []
    allTagAttrs := [] }

/-- C8 as stated is false: for the URL `https://ex.com/thumb.jpg`
discovered by both an `og:image` meta tag (score 100) and a plain
`<img src>` (score 10), the max across paths is 100, but the post-pass
penalty for the substring `thumb` brings the returned final score to 80,
below 100.  (The max — not the sum — is still what feeds the penalty pass:
the upgraded URL `.../large.jpg` receives 105, and no entry receives
100 + 10.) -/
theorem c8_counterexample :
    collectCandidates (fun _ u => u) (fun s => s)
        (c8ScenarioDoc "https://ex.com/thumb.jpg") "https://ex.com" =
      [("https://ex.com/large.jpg", 105), ("https://ex.com/thumb.jpg", 80)] ∧
    (80 : Int) < 100 := by decide

theorem scoreUrl_nil (url : String) (k : Int) :
    scoreUrl [] url k = [(url, max (-(10 ^ 9 : Int)) k)] := by
  simp [scoreUrl]

theorem imgTagScan_src (add : List (String × Int) → String → Int → List (String × Int))
    (u : String) (hu : u ≠ "") (scored : List (String × Int)) :
    imgTagScan add [("src", u)] attrsPriority scored = add scored u 10 := by
  have g1 : getAttr [("src", u)] "data-srcset" = none := rfl
  have g2 : getAttr [("src", u)] "srcset" = none := rfl
  have g3 : getAttr [("src", u)] "data-src" = none := rfl
  have g4 : getAttr [("src", u)] "data-original" = none := rfl
  have g5 : getAttr [("src", u)] "data-lazy-src" = none := rfl
  have g6 : getAttr [("src", u)] "data-full" = none := rfl
  have g7 : getAttr [("src", u)] "data-large" = none := rfl
  have g8 : getAttr [("src", u)] "src" = some u := rfl
  have hc : containsSub "src" "srcset" = false := by decide
  simp only [attrsPriority, imgTagScan, g1, g2, g3, g4, g5, g6, g7, g8]
  rw [if_neg hu, hc]
  simp only [Bool.false_eq_true, if_false]
  rw [if_neg (by decide :
    ¬("src" = "data-original" ∨ "src" = "data-full" ∨ "src" = "data-large"))]

/-- C8 amended: in the C8 scenario — one `og:image` meta tag and one plain
`<img src>` with the same (truthy, normalisable) URL — the URL's final
returned score is exactly the maximum 100 of its two path scores
(100 and 10), not their sum 110, provided the normalised URL carries no
post-pass penalty (no `thumb`/`thumbnail`/`icon`/`avatar`/`logo`
substring, not ending in `.svg`/`.gif`); with a penalty the maximum is
still what the penalties are subtracted from. -/
theorem c8_final_score_is_max (urljoin : String → String → String)
    (stripSizeParams : String → String) (baseUrl u url : String)
    (hu : u ≠ "") (hnorm : normalizeUrl urljoin baseUrl u = some url) (hurl : url ≠ "")
    (hp : penaltyTokens.any (fun t => containsSub (strLower url) t) = false)
    (hsvg : (strEndsWith (strLower url) ".svg" || strEndsWith (strLower url) ".gif")
      = false) :
    (url, (100 : Int)) ∈ collectCandidates urljoin stripSizeParams (c8ScenarioDoc u) baseUrl ∧
    (url, (110 : Int)) ∉ collectCandidates urljoin stripSizeParams (c8ScenarioDoc u) baseUrl := by
  have hpen : penalize (url, (100 : Int)) = (url, 100) := by
    simp only [penalize, hp, hsvg]
    norm_num
  have hmax100 : max (-(10 ^ 9 : Int)) 100 = 100 := by norm_num
  have hmax105 : max (-(10 ^ 9 : Int)) 105 = 105 := by norm_num
  have hmaxTen : max (100 : Int) 10 = 100 := by norm_num
  have hmax15 : max (105 : Int) 15 = 105 := by norm_num
  by_cases hup : upgradeUrl stripSizeParams url = url
  · -- the upgrade is the identity on this URL: one scored entry
    have h100 : addCand urljoin stripSizeParams baseUrl [] u 100 = [(url, 100)] := by
      simp only [addCand, hnorm]
      rw [if_neg hu, if_neg hurl, hup]
      simp [scoreUrl, hmax100]
    have h10 : addCand urljoin stripSizeParams baseUrl [(url, 100)] u 10 = [(url, 100)] := by
      simp only [addCand, hnorm]
      rw [if_neg hu, if_neg hurl, hup]
      simp [scoreUrl, hmaxTen]
    have hs : collectScored urljoin stripSizeParams (c8ScenarioDoc u) baseUrl
        = [(url, 100)] := by
      simp only [collectScored, c8ScenarioDoc, List.foldl_cons, List.foldl_nil]
      rw [if_pos hu, h100, imgTagScan_src _ u hu, h10]
    constructor
    · simp only [collectCandidates, hs, List.map_cons, List.map_nil, hpen, sortByScoreDesc]
      exact (List.perm_insertionSort (fun a b : String × Int => b.2 ≤ a.2)
        [(url, (100 : Int))]).mem_iff.mpr (by simp)
    · simp only [collectCandidates, hs, List.map_cons, List.map_nil, hpen, sortByScoreDesc]
      intro hmem
      have := (List.perm_insertionSort (fun a b : String × Int => b.2 ≤ a.2)
        [(url, (100 : Int))]).mem_iff.mp hmem
      simp at this
  · -- the upgrade produced a second, distinct URL entry
    have hbne : (url == upgradeUrl stripSizeParams url) = false := by
      simp only [beq_eq_false_iff_ne]
      exact fun h => hup h.symm
    have hbne' : (upgradeUrl stripSizeParams url == url) = false := by
      simp only [beq_eq_false_iff_ne]
      exact hup
    have h100 : addCand urljoin stripSizeParams baseUrl [] u 100
        = [(url, 100), (upgradeUrl stripSizeParams url, 105)] := by
      simp only [addCand, hnorm]
      rw [if_neg hu, if_neg hurl, if_pos hup]
      rw [scoreUrl_nil, hmax100]
      simp only [scoreUrl, List.any_cons, List.any_nil, hbne, Bool.or_false,
        Bool.false_eq_true, if_false, List.cons_append, List.nil_append]
      norm_num
    have h10 : addCand urljoin stripSizeParams baseUrl
        [(url, 100), (upgradeUrl stripSizeParams url, 105)] u 10
        = [(url, 100), (upgradeUrl stripSizeParams url, 105)] := by
      simp only [addCand, hnorm]
      rw [if_neg hu, if_neg hurl, if_pos hup]
      simp only [scoreUrl, List.any_cons, List.any_nil, beq_self_eq_true, Bool.true_or,
        Bool.or_true, Bool.or_false, if_true, List.map_cons, List.map_nil, hbne, hbne',
        Bool.false_eq_true, if_false, Bool.false_or, hmaxTen, hmax15]
      norm_num
    have hs : collectScored urljoin stripSizeParams (c8ScenarioDoc u) baseUrl
        = [(url, 100), (upgradeUrl stripSizeParams url, 105)] := by
      simp only [collectScored, c8ScenarioDoc, List.foldl_cons, List.foldl_nil]
      rw [if_pos hu, h100, imgTagScan_src _ u hu, h10]
    constructor
    · simp only [collectCandidates, hs, List.map_cons, List.map_nil, hpen, sortByScoreDesc]
      exact (List.perm_insertionSort (fun a b : String × Int => b.2 ≤ a.2)
        [(url, (100 : Int)), penalize (upgradeUrl stripSizeParams url, 105)]).mem_iff.mpr
        (by simp)
    · simp only [collectCandidates, hs, List.map_cons, List.map_nil, hpen, sortByScoreDesc]
      intro hmem
      have hm := (List.perm_insertionSort (fun a b : String × Int => b.2 ≤ a.2)
        [(url, (100 : Int)), penalize (upgradeUrl stripSizeParams url, 105)]).mem_iff.mp hmem
      simp only [List.mem_cons, List.mem_singleton, Prod.mk.injEq, penalize,
        List.not_mem_nil] at hm
      rcases hm with ⟨_, h110⟩ | ⟨hequp, _⟩ | h
      · omega
      · exact hup hequp.symm
      · exact h

/-- Closed instance of the amended C8 at a concrete input. -/
theorem c8_witness :
    (("https://ex.com/photo.jpg" : String) ≠ "" ∧
      normalizeUrl (fun _ u => u) "https://ex.com" "https://ex.com/photo.jpg" =
        some "https://ex.com/photo.jpg") ∧
    ("https://ex.com/photo.jpg", (100 : Int)) ∈
      collectCandidates (fun _ u => u) (fun s => s)
        (c8ScenarioDoc "https://ex.com/photo.jpg") "https://ex.com" :=
  ⟨⟨by decide, by decide⟩,
    (c8_final_score_is_max (fun _ u => u) (fun s => s) "https://ex.com"
      "https://ex.com/photo.jpg" "https://ex.com/photo.jpg" (by decide) (by decide)
      (by decide) (by decide) (by decide)).1⟩
